import Mathlib

set_option maxRecDepth 10000

/-!
Verification of the HTML structural diff / change-highlighting engine of
contentops-frontend (src/src/App.jsx).  Strings are embedded as `List Char`;
the JavaScript regex operations used by the source are embedded as explicit
left-to-right scanners with the same matching semantics.
-/

namespace ContentOps

/-- JS `\s` whitespace (the ASCII part, which is all the engine's regexes and
`trim` ever see on its HTML inputs). -/
def isWsChar (c : Char) : Bool :=
  c = ' ' || c = '\t' || c = '\n' || c = '\r' || c = '\x0b' || c = '\x0c'

/-- After a `<`, skip up to and through the next `>`.  `none` when no `>`
follows, in which case the regex `<[^>]*>` has no match starting at that `<`. -/
def dropTag : List Char → Option (List Char)
  | [] => none
  | c :: r => if c = '>' then some r else dropTag r

/-- Fuel-indexed body of `stripTags`; the fuel only makes the recursion
structural, the wrapper passes enough that it never runs out. -/
def stripTagsFuel : Nat → List Char → List Char
  | 0, s => s
  | f + 1, s =>
    match s with
    | [] => []
    | c :: r =>
      if c = '<' then
        match dropTag r with
        | some r2 => stripTagsFuel f r2
        | none => c :: stripTagsFuel f r
      else c :: stripTagsFuel f r

/-- `html.replace(/<[^>]*>/g, '')` (App.jsx line 76): delete every run from a
`<` through the nearest following `>`; a `<` with no later `>` stays. -/
def stripTags (s : List Char) : List Char := stripTagsFuel s.length s

/-- Fuel-indexed body of `collapseWs`. -/
def collapseWsFuel : Nat → List Char → List Char
  | 0, s => s
  | f + 1, s =>
    match s with
    | [] => []
    | c :: r =>
      if isWsChar c then ' ' :: collapseWsFuel f (r.dropWhile isWsChar)
      else c :: collapseWsFuel f r

/-- `.replace(/\s+/g, ' ')`: collapse each maximal whitespace run to one
space. -/
def collapseWs (s : List Char) : List Char := collapseWsFuel s.length s

/-- `.trim()`: drop leading and trailing whitespace. -/
def trimWs (s : List Char) : List Char :=
  ((s.dropWhile isWsChar).reverse.dropWhile isWsChar).reverse

/-- `stripHTML` (App.jsx line 76): tags stripped, whitespace collapsed, trimmed.
This is the block-normalization key of the change detector. -/
def stripHTML (s : List Char) : List Char :=
  trimWs (collapseWs (stripTags s))

/-- `pat.test(s)`-style substring search: true iff `pat` occurs (contiguously)
anywhere in `s`, scanning candidate start positions left to right exactly as a
JS regex engine does for a literal pattern. -/
def occursIn (pat s : List Char) : Bool :=
  pat.isPrefixOf s ||
    match s with
    | [] => false
    | _ :: r => occursIn pat r

/-- ASCII lowering, matching what the `i` regex flag does on the ASCII patterns
the source uses. -/
def lowerStr (s : List Char) : List Char := s.map Char.toLower

/-- The literal `class="` that opens the class-attribute regexes. -/
def CLASS_OPEN : List Char := ("class=\"").data

/-- One anchored attempt of `/class="[^"]*TOK[^"]*"/`: the string starts with
`class="`, the following quote-free run is closed by a quote, and it contains
TOK. -/
def classAt (tok : List Char) (s : List Char) : Bool :=
  CLASS_OPEN.isPrefixOf s &&
    (decide (((s.drop CLASS_OPEN.length).takeWhile (fun c => c != '"')).length <
        (s.drop CLASS_OPEN.length).length) &&
      occursIn tok ((s.drop CLASS_OPEN.length).takeWhile (fun c => c != '"')))

/-- `/class="[^"]*TOK[^"]*"/` on an (already lowered) string: some occurrence
of `class="` is followed by a quote-free run containing TOK and then a closing
quote.  Like the regex engine, every start position is tried. -/
def classScan (tok : List Char) (s : List Char) : Bool :=
  classAt tok s ||
    match s with
    | [] => false
    | _ :: r => classScan tok r

/-- `isSpecialElement` (App.jsx lines 118-123): the block-classifier.  A block
is special/protected when its serialized markup matches one of the five
case-insensitive regexes of the source. -/
def isSpecialElement (b : List Char) : Bool :=
  occursIn ("<table").data (lowerStr b) ||
  occursIn ("<iframe").data (lowerStr b) ||
  occursIn ("<embed").data (lowerStr b) ||
  occursIn ("<script").data (lowerStr b) ||
  occursIn ("<img").data (lowerStr b) ||
  occursIn ("<figure").data (lowerStr b) ||
  classScan ("widget").data (lowerStr b) ||
  classScan ("w-embed").data (lowerStr b) ||
  classScan ("info-widget").data (lowerStr b) ||
  occursIn ("data-w-id").data (lowerStr b)

/-- The `originalMap` keys (App.jsx lines 102-108): normalized texts of the
original blocks that are nonempty and longer than 5 characters.  Only key
membership is ever consulted (`!match`), so the map is embedded as its key
set; `Map.set` collisions collapse, which key membership is insensitive to. -/
def buildLookup (origBlocks : List (List Char)) : List (List Char) :=
  (origBlocks.map stripHTML).filter (fun c => !c.isEmpty && decide (5 < c.length))

/-- The flagging condition of App.jsx line 129:
`!match && cleanedUpdated.length > 20 && !isSpecialElement`. -/
def isChangedBlock (lookup : List (List Char)) (b : List Char) : Bool :=
  !(lookup.contains (stripHTML b)) &&
    decide (20 < (stripHTML b).length) && !(isSpecialElement b)

/-- The highlight wrapper opening tag of App.jsx line 131. -/
def HIGHLIGHT_OPEN : List Char :=
  ("<div style=\"background-color: #e0f2fe; padding: 8px; margin: 8px 0; border-left: 3px solid #0ea5e9; border-radius: 4px;\">").data

/-- The wrapper closing tag. -/
def CLOSE_DIV : List Char := ("</div>").data

/-- One loop iteration's contribution to `highlightedHTML` (App.jsx 129-137):
a flagged block is wrapped, every other block passes through as-is. -/
def annotateBlock (lookup : List (List Char)) (b : List Char) : List Char :=
  if isChangedBlock lookup b then HIGHLIGHT_OPEN ++ b ++ CLOSE_DIV else b

/-- The `updatedBlocks.forEach` accumulation (App.jsx 110-138) producing
`(highlightedHTML, changesCount)`. -/
def processBlocks (lookup : List (List Char)) : List (List Char) → List Char × Nat
  | [] => ([], 0)
  | b :: rest =>
    (annotateBlock lookup b ++ (processBlocks lookup rest).1,
      (if isChangedBlock lookup b then 1 else 0) + (processBlocks lookup rest).2)

/-- `createHighlightedHTML` (App.jsx 75-141) over the two documents' block
sequences (splitting into blocks is the segmenter, embedded separately). -/
def createHighlightedHTML (origBlocks updatedBlocks : List (List Char)) :
    List Char × Nat :=
  processBlocks (buildLookup origBlocks) updatedBlocks

/-- The wrapper-recognition signature of the stripper regex (App.jsx 382):
the literal prefix `<div style="background-color: #e0f2fe;`. -/
def SIG : List Char := ("<div style=\"background-color: #e0f2fe;").data

/-- First occurrence split: `splitFirst pat s = some (a, b)` when `s = a ++ pat
++ b` with the occurrence of `pat` the leftmost one; `none` when `pat` does not
occur.  Embeds the lazy `(.*?)pat` step of the stripper regex. -/
def splitFirst (pat : List Char) (s : List Char) : Option (List Char × List Char) :=
  if pat.isPrefixOf s then some ([], s.drop pat.length)
  else
    match s with
    | [] => none
    | c :: r =>
      match splitFirst pat r with
      | some p => some (c :: p.1, p.2)
      | none => none

/-- Attempt to match `/<div style="background-color: #e0f2fe;[^"]*">(.*?)<\/div>/s`
at the start of `s`.  On success, returns the captured group and the rest of
the string after the match. -/
def stripAttempt (s : List Char) : Option (List Char × List Char) :=
  if SIG.isPrefixOf s then
    match (s.drop SIG.length).drop
        (((s.drop SIG.length).takeWhile (fun c => c != '"')).length) with
    | q :: g :: u =>
      if q = '"' then if g = '>' then splitFirst CLOSE_DIV u else none else none
    | _ => none
  else none

/-- The stripper (inside `handleAfterViewInput`, App.jsx 377-385):
`rawHTML.replace(/<div style="background-color: #e0f2fe;[^"]*">(.*?)<\/div>/gs, '$1')`.
A global regex replace scans the input left to right; at each position it tries
the pattern, on success emits the captured group and resumes after the match
(the original string is scanned, replacements are not re-scanned), on failure
emits the character and moves one position right. -/
def stripHighlightsFuel : Nat → List Char → List Char
  | 0, s => s
  | f + 1, s =>
    match s with
    | [] => []
    | c :: r =>
      match stripAttempt (c :: r) with
      | some p => p.1 ++ stripHighlightsFuel f p.2
      | none => c :: stripHighlightsFuel f r

def stripHighlights (s : List Char) : List Char := stripHighlightsFuel s.length s

/-- A node among the direct children of the parsing wrapper, as
`splitIntoBlocks` (App.jsx 80-96) consumes them: an element child carries its
`outerHTML`, a text child its `textContent`. -/
inductive DomNode where
  | element (outerHTML : List Char)
  | text (content : List Char)
deriving DecidableEq

/-- The child-iteration of `splitIntoBlocks` (App.jsx 86-93): element children
contribute their outer markup, text children their raw text when it is not
whitespace-only; nothing else produces a block. -/
def splitIntoBlocksFrom (nodes : List DomNode) : List (List Char) :=
  match nodes with
  | [] => []
  | DomNode.element h :: rest => h :: splitIntoBlocksFrom rest
  | DomNode.text t :: rest =>
    if (trimWs t).isEmpty then splitIntoBlocksFrom rest
    else t :: splitIntoBlocksFrom rest

/-- Modelled from the spec: the browser `DOMParser` that `splitIntoBlocks`
(App.jsx line 81) delegates to is a platform builtin absent from the
repository.  Spec section 4.1 fixes the case this model covers: parsing never
fails, and input that cannot be parsed as markup at all is treated as a single
text node holding the entire input. -/
def domParseUnparsable (s : List Char) : List DomNode := [DomNode.text s]

/-- A protected (table) block whose text matches nothing. -/
def tableBlock : List Char :=
  ("<table><tr><td>brand new table content here</td></tr></table>").data

/-- A proseable paragraph with an inline image nested in it. -/
def imgParaBlock : List Char :=
  ("<p>Totally different prose text with an image <img src=\"x\"> inside.</p>").data

/-- A short original paragraph for lookup witnesses. -/
def origParaBlock : List Char := ("<p>Original text here</p>").data

/-- C8's notion of full-document normalized text: concatenated block text
after tag stripping and whitespace collapsing. -/
def specNormalizedFullText (blocks : List (List Char)) : List Char :=
  stripHTML blocks.flatten

/-- C5 counterexample input: stripping the inner wrapper juxtaposes the two
outer fragments into a fresh wrapper that only a second pass removes. -/
def cex5 : List Char :=
  SIG ++ (SIG ++ ("\u0022>x</div>").data) ++ ("\u0022>y</div>").data

/-- C3 counterexample block: a changed block containing an interior closing
div, which the lazy stripper regex cuts at. -/
def cex3 : List Char :=
  ("<div><div>aaaaaaaaaaaaaaaaaaaaa</div><div>b</div></div>").data

/-- C8 counterexample original document. -/
def c8OrigBlocks : List (List Char) :=
  [("<p>aaaaabbbbbcccccdddddeeeeefffff</p>").data]

/-- C8 counterexample candidate document: same full text, re-divided. -/
def c8CandBlocks : List (List Char) :=
  [("<p>aaaaabbbbbcccccdddddeeeee</p>").data, ("<p>fffff</p>").data]

/-- A 21-character-normalized paragraph and a markup-level variant of it. -/
def wonderBlock : List Char := ("<p class=\u0022a\u0022 id=\u0022b\u0022>Hello wonderful world</p>").data

/-- Same normalized text as wonderBlock: tag case, attribute order and inner
whitespace differ. -/
def wonderVariantBlock : List Char :=
  ("<P id=\u0022b\u0022 class=\u0022a\u0022>Hello   wonderful  world</P>").data

/-- Markup contains the given (lowercase) literal, case-insensitively. -/
def ContainsCI (pat b : List Char) : Prop :=
  ∃ u v, lowerStr b = u ++ pat ++ v

/-- Markup carries a class attribute whose quote-delimited value contains the
given (lowercase) token, case-insensitively. -/
def HasClassTokenCI (tok b : List Char) : Prop :=
  ∃ u v w, lowerStr b = u ++ CLASS_OPEN ++ v ++ '"' :: w ∧
    (∀ c ∈ v, c ≠ '"') ∧ ∃ x y, v = x ++ tok ++ y

/-- The classifier as claim C7 words it: additionally protects w-widget and
w-richtext class tokens and framework data attributes such as data-widget. -/
def specProtectedC7 (b : List Char) : Bool :=
  occursIn ("<table").data (lowerStr b) ||
  occursIn ("<img").data (lowerStr b) ||
  occursIn ("<figure").data (lowerStr b) ||
  occursIn ("<iframe").data (lowerStr b) ||
  occursIn ("<embed").data (lowerStr b) ||
  occursIn ("<script").data (lowerStr b) ||
  classScan ("widget").data (lowerStr b) ||
  classScan ("w-embed").data (lowerStr b) ||
  classScan ("w-widget").data (lowerStr b) ||
  classScan ("w-richtext").data (lowerStr b) ||
  occursIn ("data-w-id").data (lowerStr b) ||
  occursIn ("data-widget").data (lowerStr b)

/-- A rich-text container block: protected per claim C7's wording, proseable
per the code. -/
def cex7 : List Char :=
  ("<div class=\u0022w-richtext\u0022>some content</div>").data

/-- The tail of the wrapper-open tag after the recognition signature, up to
the closing quote. -/
def R1 : List Char :=
  (" padding: 8px; margin: 8px 0; border-left: 3px solid #0ea5e9; border-radius: 4px;").data

/-- A changed (non-special, long, unmatched) paragraph for round-trip
witnesses. -/
def newSentenceBlock : List Char :=
  ("<p>This is a brand new sentence about pricing.</p>").data

/-- A protected table block for round-trip witnesses. -/
def protTableBlock : List Char := ("<table><tr><td>x</td></tr></table>").data

/-! ### Theorems -/

theorem splitFirst_eq : ∀ pat s a b, splitFirst pat s = some (a, b) →
    s = a ++ pat ++ b ∧ b.length + pat.length + a.length = s.length := by
  intro pat s
  induction s with
  | nil =>
    intro a b h
    simp only [splitFirst] at h
    split at h
    · rename_i hp
      have : pat = [] := List.prefix_nil.mp ( List.isPrefixOf_iff_prefix.mp hp)
      simp [this] at h ⊢
      simp [h.1, h.2]
    · simp at h
  | cons c r ih =>
    intro a b h
    simp only [splitFirst] at h
    split at h
    · rename_i hp
      have hpre : pat <+: c :: r := List.isPrefixOf_iff_prefix.mp hp
      obtain ⟨t, ht⟩ := hpre
      simp only [Option.some.injEq, Prod.mk.injEq] at h
      obtain ⟨ha, hb⟩ := h
      subst ha
      have hdrop : (c :: r).drop pat.length = t := by
        rw [← ht, List.drop_left]
      rw [hdrop] at hb
      subst hb
      constructor
      · simp [← ht]
      · have := congrArg List.length ht
        simp at this
        simp [List.length_append] at this ⊢
        omega
    · match hsp : splitFirst pat r with
      | some p =>
        rw [hsp] at h
        simp only [Option.some.injEq, Prod.mk.injEq] at h
        obtain ⟨ha, hb⟩ := h
        obtain ⟨h1, h2⟩ := ih p.1 p.2 hsp
        subst hb
        rw [← ha]
        constructor
        · simp [h1]
        · simp only [List.length_cons, ← ha] at *
          omega
      | none => rw [hsp] at h; simp at h

theorem stripAttempt_length : ∀ s p, stripAttempt s = some p →
    p.2.length < s.length := by
  intro s p h
  simp only [stripAttempt] at h
  split at h
  · rename_i hp
    split at h
    · rename_i q g u heq
      split at h
      · split at h
        · obtain ⟨-, hlen⟩ := splitFirst_eq CLOSE_DIV u p.1 p.2 (by
            cases p; exact h)
          have h1 : u.length < s.length := by
            have h2 := congrArg List.length heq
            rw [List.length_drop, List.length_drop] at h2
            simp only [List.length_cons] at h2
            omega
          have h5 : 0 < CLOSE_DIV.length := by decide
          omega
        · simp at h
      · simp at h
    · simp at h
  · simp at h

theorem stripHighlightsFuel_nil : ∀ g, stripHighlightsFuel g [] = [] := by
  intro g
  cases g <;> rfl

theorem stripHighlightsFuel_congr : ∀ f g s, s.length ≤ f → s.length ≤ g →
    stripHighlightsFuel f s = stripHighlightsFuel g s := by
  intro f
  induction f with
  | zero =>
    intro g s hf _
    have : s = [] := List.length_eq_zero.mp (Nat.le_zero.mp hf)
    subst this
    rw [stripHighlightsFuel_nil, stripHighlightsFuel_nil]
  | succ f ih =>
    intro g s hf hg
    match s with
    | [] => rw [stripHighlightsFuel_nil, stripHighlightsFuel_nil]
    | c :: r =>
      match g with
      | 0 => simp at hg
      | g + 1 =>
        show stripHighlightsFuel (f + 1) (c :: r) =
          stripHighlightsFuel (g + 1) (c :: r)
        simp only [stripHighlightsFuel]
        cases h : stripAttempt (c :: r) with
        | some p =>
          have hp := stripAttempt_length (c :: r) p h
          simp only [List.length_cons] at hf hg hp
          dsimp only
          rw [ih g p.2 (by omega) (by omega)]
        | none =>
          simp only [List.length_cons] at hf hg
          dsimp only
          rw [ih g r (by omega) (by omega)]

theorem stripHighlights_cons (c : Char) (r : List Char) :
    stripHighlights (c :: r) =
      match stripAttempt (c :: r) with
      | some p => p.1 ++ stripHighlights p.2
      | none => c :: stripHighlights r := by
  show stripHighlightsFuel (r.length + 1) (c :: r) = _
  simp only [stripHighlightsFuel]
  cases h : stripAttempt (c :: r) with
  | some p =>
    have hp := stripAttempt_length (c :: r) p h
    simp only [List.length_cons] at hp
    dsimp only
    rw [stripHighlightsFuel_congr r.length p.2.length p.2 (by omega) (by omega)]
    rfl
  | none => rfl

theorem occursIn_iff (pat s : List Char) :
    occursIn pat s = true ↔ ∃ u v, s = u ++ pat ++ v := by
  induction s with
  | nil =>
    simp only [occursIn, Bool.or_false]
    constructor
    · intro h
      have : pat = [] := List.prefix_nil.mp ( List.isPrefixOf_iff_prefix.mp h)
      exact ⟨[], [], by simp [this]⟩
    · rintro ⟨u, v, huv⟩
      have : pat = [] := by
        have := congrArg List.length huv
        simp at this
        exact List.length_eq_zero.mp (by omega)
      simp [this, List.isPrefixOf_iff_prefix]
  | cons c r ih =>
    simp only [occursIn, Bool.or_eq_true]
    constructor
    · rintro (h | h)
      · obtain ⟨t, ht⟩ := List.isPrefixOf_iff_prefix.mp h
        exact ⟨[], t, by simp [← ht]⟩
      · obtain ⟨u, v, huv⟩ := ih.mp h
        exact ⟨c :: u, v, by simp [huv]⟩
    · rintro ⟨u, v, huv⟩
      match u with
      | [] =>
        left
        rw [ List.isPrefixOf_iff_prefix]
        exact huv ▸ ⟨v, by simp⟩
      | c2 :: u2 =>
        right
        apply ih.mpr
        refine ⟨u2, v, ?_⟩
        have : c = c2 ∧ r = u2 ++ pat ++ v := by
          simpa using huv
        exact this.2

theorem occursIn_cons_false {pat : List Char} {c : Char} {r : List Char}
    (h : occursIn pat (c :: r) = false) :
    pat.isPrefixOf (c :: r) = false ∧ occursIn pat r = false := by
  rw [show occursIn pat (c :: r) = (pat.isPrefixOf (c :: r) || occursIn pat r)
    from rfl] at h
  exact ⟨by revert h; cases pat.isPrefixOf (c :: r) <;> simp,
    by revert h; cases occursIn pat r <;> simp⟩

theorem mem_buildLookup {origBlocks : List (List Char)} {a : List Char}
    (ha : a ∈ origBlocks) (hlen : 5 < (stripHTML a).length) :
    stripHTML a ∈ buildLookup origBlocks := by
  apply List.mem_filter.mpr
  refine ⟨List.mem_map_of_mem stripHTML ha, ?_⟩
  have hne : (stripHTML a).isEmpty = false := by
    rw [List.isEmpty_eq_false_iff_exists_mem]
    match hm : stripHTML a with
    | [] => rw [hm] at hlen; simp at hlen
    | x :: t => exact ⟨x, by simp⟩
  simp [hne, hlen]

theorem contains_buildLookup {origBlocks : List (List Char)} {a : List Char}
    (ha : a ∈ origBlocks) (hlen : 5 < (stripHTML a).length) :
    (buildLookup origBlocks).contains (stripHTML a) = true :=
  List.elem_eq_true_of_mem (mem_buildLookup ha hlen)

/-- A candidate block whose normalized text equals that of some original block
is never flagged. -/
theorem not_changed_of_normalized_match {origBlocks : List (List Char)}
    {a b : List Char} (ha : a ∈ origBlocks) (hab : stripHTML b = stripHTML a) :
    isChangedBlock (buildLookup origBlocks) b = false := by
  by_cases hl : 20 < (stripHTML b).length
  · have h5 : 5 < (stripHTML a).length := by rw [← hab]; omega
    have hc := contains_buildLookup ha h5
    rw [← hab] at hc
    unfold isChangedBlock
    rw [hc]
    simp
  · simp [isChangedBlock, hl]

theorem processBlocks_count_zero {L : List (List Char)} :
    ∀ bs : List (List Char), (∀ b ∈ bs, isChangedBlock L b = false) →
    (processBlocks L bs).2 = 0 := by
  intro bs
  induction bs with
  | nil => intro _; rfl
  | cons b rest ih =>
    intro h
    simp only [processBlocks]
    rw [h b (by simp), ih (fun x hx => h x (by simp [hx]))]
    simp

theorem processBlocks_append (L : List (List Char)) (xs ys : List (List Char)) :
    processBlocks L (xs ++ ys) =
      ((processBlocks L xs).1 ++ (processBlocks L ys).1,
        (processBlocks L xs).2 + (processBlocks L ys).2) := by
  induction xs with
  | nil => simp [processBlocks]
  | cons b rest ih =>
    simp only [List.cons_append, processBlocks, ih]
    simp [ih, List.append_assoc, Nat.add_assoc]

/-- C1: in createHighlightedHTML a candidate block is marked changed if and
only if its normalized text is not a key of the lookup built from the original
blocks, the block is not a special/protected element, and its normalized text
is strictly longer than 20 characters; a block not marked changed is emitted
unchanged. -/
theorem c1_flag_iff_and_passthrough (origBlocks : List (List Char))
    (b : List Char) :
    (isChangedBlock (buildLookup origBlocks) b = true ↔
      ((buildLookup origBlocks).contains (stripHTML b) = false ∧
        isSpecialElement b = false ∧ 20 < (stripHTML b).length)) ∧
    (isChangedBlock (buildLookup origBlocks) b = false →
      annotateBlock (buildLookup origBlocks) b = b) := by
  constructor
  · unfold isChangedBlock
    cases hc : (buildLookup origBlocks).contains (stripHTML b) <;>
      cases hs : isSpecialElement b <;>
      by_cases hl : 20 < (stripHTML b).length <;> simp [hl]
  · intro h
    simp [annotateBlock, h]

/-- C1 witness: the biconditional applied at a concrete new long paragraph. -/
theorem c1_flag_iff_and_passthrough_witness :
    isChangedBlock (buildLookup [origParaBlock])
      (("<p>A genuinely new long sentence for this test.</p>").data) = true :=
  (c1_flag_iff_and_passthrough [origParaBlock]
    (("<p>A genuinely new long sentence for this test.</p>").data)).1.mpr
    (by refine ⟨by decide, by decide, by decide⟩)

/-- C2: running the change detector with the same block sequence as original
and candidate yields changeCount 0 and flags no block (each block over the
length threshold finds its own normalized text in the lookup; the rest fail
the length guard). -/
theorem c2_zero_diff_on_identity (blocks : List (List Char)) :
    (createHighlightedHTML blocks blocks).2 = 0 ∧
      blocks.all (fun b => !(isChangedBlock (buildLookup blocks) b)) = true := by
  have hall : ∀ b ∈ blocks, isChangedBlock (buildLookup blocks) b = false :=
    fun b hb => not_changed_of_normalized_match hb rfl
  refine ⟨processBlocks_count_zero blocks hall, ?_⟩
  rw [List.all_eq_true]
  intro b hb
  simp [hall b hb]

/-- C4: a candidate block classified special/protected is never flagged, adds
nothing to changesCount, and is emitted byte-identical in the annotated
output, whatever the original document contains and wherever the block sits
in the candidate sequence. -/
theorem c4_protected_passthrough (origBlocks pre post : List (List Char))
    (b : List Char) (hb : isSpecialElement b = true) :
    isChangedBlock (buildLookup origBlocks) b = false ∧
    createHighlightedHTML origBlocks (pre ++ b :: post) =
      ((processBlocks (buildLookup origBlocks) pre).1 ++ b ++
        (processBlocks (buildLookup origBlocks) post).1,
        (processBlocks (buildLookup origBlocks) pre).2 +
          (processBlocks (buildLookup origBlocks) post).2) := by
  have hflag : isChangedBlock (buildLookup origBlocks) b = false := by
    simp [isChangedBlock, hb]
  refine ⟨hflag, ?_⟩
  unfold createHighlightedHTML
  have hsplit : pre ++ b :: post = pre ++ [b] ++ post := by simp
  rw [hsplit, processBlocks_append, processBlocks_append]
  simp [processBlocks, annotateBlock, hflag, List.append_assoc]

/-- C4 witness: a table block, absent from the original, passes through. -/
theorem c4_protected_passthrough_witness :
    isChangedBlock (buildLookup [origParaBlock]) tableBlock = false ∧
    createHighlightedHTML [origParaBlock] ([] ++ tableBlock :: []) =
      ((processBlocks (buildLookup [origParaBlock]) []).1 ++ tableBlock ++
        (processBlocks (buildLookup [origParaBlock]) []).1,
        (processBlocks (buildLookup [origParaBlock]) []).2 +
          (processBlocks (buildLookup [origParaBlock]) []).2) :=
  c4_protected_passthrough [origParaBlock] [] [] tableBlock (by decide)

/-- C10: the protected check is a substring/regex match over the block's whole
serialized markup, so a block containing a protected tag opening, a protected
class token, or the data-w-id marker anywhere, nested included, is classified
special and is never flagged nor wrapped, for every lookup. -/
theorem c10_nested_protected_passthrough (lookup : List (List Char))
    (b : List Char)
    (h : occursIn ("<table").data (lowerStr b) = true ∨
         occursIn ("<iframe").data (lowerStr b) = true ∨
         occursIn ("<embed").data (lowerStr b) = true ∨
         occursIn ("<script").data (lowerStr b) = true ∨
         occursIn ("<img").data (lowerStr b) = true ∨
         occursIn ("<figure").data (lowerStr b) = true ∨
         classScan ("widget").data (lowerStr b) = true ∨
         classScan ("w-embed").data (lowerStr b) = true ∨
         classScan ("info-widget").data (lowerStr b) = true ∨
         occursIn ("data-w-id").data (lowerStr b) = true) :
    isSpecialElement b = true ∧ isChangedBlock lookup b = false ∧
      annotateBlock lookup b = b := by
  have hs : isSpecialElement b = true := by
    unfold isSpecialElement
    rcases h with h|h|h|h|h|h|h|h|h|h <;> simp [h]
  have hf : isChangedBlock lookup b = false := by simp [isChangedBlock, hs]
  exact ⟨hs, hf, by simp [annotateBlock, hf]⟩

/-- C10 witness: a paragraph with different prose but an inline image is
treated as protected. -/
theorem c10_nested_protected_passthrough_witness :
    isSpecialElement imgParaBlock = true ∧
    isChangedBlock (buildLookup [origParaBlock]) imgParaBlock = false ∧
    annotateBlock (buildLookup [origParaBlock]) imgParaBlock = imgParaBlock :=
  c10_nested_protected_passthrough (buildLookup [origParaBlock]) imgParaBlock
    (Or.inr (Or.inr (Or.inr (Or.inr (Or.inl (by decide))))))

/-- If the stripper regex has no wrapper signature to find, the global replace
leaves the string untouched. -/
theorem stripHighlights_noop {s : List Char} (h : occursIn SIG s = false) :
    stripHighlights s = s := by
  induction s with
  | nil => rfl
  | cons c r ih =>
    obtain ⟨hp, hr⟩ := occursIn_cons_false h
    rw [stripHighlights_cons]
    have ha : stripAttempt (c :: r) = none := by
      unfold stripAttempt
      simp [hp]
    rw [ha]
    rw [ih hr]

/-- C5 (amended): stripping is a no-op on HTML with no occurrence of the
wrapper-open signature, and hence strip(strip(A)) = strip(A) whenever one
stripping pass leaves no signature occurrence behind; already-clean HTML is
the special case.  (Unconditional idempotence is refuted separately.) -/
theorem c5_strip_noop_and_conditional_idempotence (A : List Char) :
    (occursIn SIG A = false → stripHighlights A = A) ∧
    (occursIn SIG (stripHighlights A) = false →
      stripHighlights (stripHighlights A) = stripHighlights A) :=
  ⟨fun h => stripHighlights_noop h, fun h => stripHighlights_noop h⟩

/-- C5 witness: clean HTML strips to itself, twice. -/
theorem c5_strip_noop_witness :
    stripHighlights (("<p>clean html</p>").data) = ("<p>clean html</p>").data ∧
    stripHighlights (stripHighlights (("<p>clean html</p>").data)) =
      stripHighlights (("<p>clean html</p>").data) :=
  ⟨(c5_strip_noop_and_conditional_idempotence (("<p>clean html</p>").data)).1
      (by decide),
    (c5_strip_noop_and_conditional_idempotence (("<p>clean html</p>").data)).2
      (by decide)⟩

/-- C5 counterexample: the stripper is not idempotent; a first pass can
assemble a new wrapper match from fragments, which a second pass removes. -/
theorem c5_counterexample :
    ¬ stripHighlights (stripHighlights cex5) = stripHighlights cex5 := by
  decide

/-- C6 counterexample: the lookup omits the normalized text of an original
block when it is at most 5 characters long, against the claim that every
block's normalized text is present. -/
theorem c6_counterexample :
    (buildLookup [("<p>abc</p>").data]).contains
      (stripHTML ("<p>abc</p>").data) = false := by
  decide

/-- C6 (amended): the lookup contains the normalized text of every original
block longer than 5 characters (collisions collapsed), and since flagging also
requires more than 20 characters, a candidate block whose normalized text
equals that of any original block, short ones included, is never flagged. -/
theorem c6_lookup_long_texts_and_no_flag (origBlocks : List (List Char))
    (a b : List Char) (ha : a ∈ origBlocks) :
    (5 < (stripHTML a).length →
      (buildLookup origBlocks).contains (stripHTML a) = true) ∧
    (stripHTML b = stripHTML a →
      isChangedBlock (buildLookup origBlocks) b = false) :=
  ⟨fun h5 => contains_buildLookup ha h5,
    fun hab => not_changed_of_normalized_match ha hab⟩

/-- C6 witness: a concrete original paragraph is in the lookup and shields a
markup-variant candidate from flagging. -/
theorem c6_lookup_long_texts_and_no_flag_witness :
    (buildLookup [wonderBlock]).contains (stripHTML wonderBlock) = true ∧
    isChangedBlock (buildLookup [wonderBlock]) wonderVariantBlock = false :=
  ⟨(c6_lookup_long_texts_and_no_flag [wonderBlock] wonderBlock
      wonderVariantBlock (by decide)).1 (by decide),
    (c6_lookup_long_texts_and_no_flag [wonderBlock] wonderBlock
      wonderVariantBlock (by decide)).2 (by decide)⟩

/-- C8 counterexample: original and candidate normalize to byte-identical full
text (under either reading of the concatenation) yet the detector flags one
block, because the candidate divides the same text differently. -/
theorem c8_counterexample :
    specNormalizedFullText c8OrigBlocks = specNormalizedFullText c8CandBlocks ∧
    (c8OrigBlocks.map stripHTML).flatten =
      (c8CandBlocks.map stripHTML).flatten ∧
    (createHighlightedHTML c8OrigBlocks c8CandBlocks).2 = 1 := by
  refine ⟨by decide, by decide, by decide⟩

/-- C8 (amended): when every candidate block's normalized text equals the
normalized text of some original block — which markup-level differences such
as attribute reordering, tag case or whitespace never disturb — changeCount
is 0 and no block is flagged; identical full text under a different division
into blocks does not suffice. -/
theorem c8_zero_count_on_blockwise_text_match
    (origBlocks candBlocks : List (List Char))
    (h : ∀ b ∈ candBlocks, ∃ a ∈ origBlocks, stripHTML b = stripHTML a) :
    (createHighlightedHTML origBlocks candBlocks).2 = 0 ∧
      candBlocks.all
        (fun b => !(isChangedBlock (buildLookup origBlocks) b)) = true := by
  have hall : ∀ b ∈ candBlocks,
      isChangedBlock (buildLookup origBlocks) b = false := by
    intro b hb
    obtain ⟨a, ha, hab⟩ := h b hb
    exact not_changed_of_normalized_match ha hab
  refine ⟨processBlocks_count_zero _ hall, ?_⟩
  rw [List.all_eq_true]
  intro b hb
  simp [hall b hb]

/-- C8 witness: attribute reordering, tag case and whitespace drift leave the
count at zero. -/
theorem c8_zero_count_on_blockwise_text_match_witness :
    (createHighlightedHTML [wonderBlock] [wonderVariantBlock]).2 = 0 ∧
    ([wonderVariantBlock]).all
      (fun b => !(isChangedBlock (buildLookup [wonderBlock]) b)) = true :=
  c8_zero_count_on_blockwise_text_match [wonderBlock] [wonderVariantBlock]
    (by decide)

/-- C9: the segmenter never raises (it is a total function of the parsed
children), and in the spec-modelled case where the input cannot be parsed as
markup at all — the parser hands back one text node holding the whole input —
it returns the entire input as a single block. -/
theorem c9_segmenter_whole_input_fallback (s : List Char)
    (h : (trimWs s).isEmpty = false) :
    splitIntoBlocksFrom (domParseUnparsable s) = [s] := by
  simp [splitIntoBlocksFrom, domParseUnparsable, h]

/-- C9 witness: plain text input comes back as one block. -/
theorem c9_segmenter_whole_input_fallback_witness :
    splitIntoBlocksFrom
        (domParseUnparsable (("just plain text, no markup at all").data)) =
      [("just plain text, no markup at all").data] :=
  c9_segmenter_whole_input_fallback (("just plain text, no markup at all").data)
    (by decide)

theorem takeWhile_all_append (p : Char → Bool) (v z : List Char)
    (h : ∀ c ∈ v, p c = true) :
    (v ++ z).takeWhile p = v ++ z.takeWhile p := by
  induction v with
  | nil => simp
  | cons c r ih =>
    simp only [List.cons_append, List.takeWhile_cons, h c (by simp)]
    rw [ih (fun x hx => h x (by simp [hx]))]
    simp

theorem classAt_nil (tok : List Char) : classAt tok [] = false := rfl

theorem classScan_cons (tok : List Char) (c : Char) (r : List Char) :
    classScan tok (c :: r) = (classAt tok (c :: r) || classScan tok r) := rfl

theorem classScan_of_classAt {tok s : List Char} (h : classAt tok s = true) :
    classScan tok s = true := by
  cases s with
  | nil => rw [classAt_nil] at h; exact absurd h (by simp)
  | cons c r => rw [classScan_cons]; simp [h]

theorem classAt_of_decomp (tok v w : List Char)
    (hv : ∀ c ∈ v, c ≠ '"') (hxy : ∃ x y, v = x ++ tok ++ y) :
    classAt tok (CLASS_OPEN ++ (v ++ '"' :: w)) = true := by
  unfold classAt
  have h1 : CLASS_OPEN.isPrefixOf (CLASS_OPEN ++ (v ++ '"' :: w)) = true :=
    List.isPrefixOf_iff_prefix.mpr ⟨v ++ '"' :: w, rfl⟩
  have h2 : (CLASS_OPEN ++ (v ++ '"' :: w)).drop CLASS_OPEN.length =
      v ++ '"' :: w := List.drop_left CLASS_OPEN (v ++ '"' :: w)
  have h3 : (v ++ '"' :: w).takeWhile (fun c => c != '"') = v := by
    rw [takeWhile_all_append (fun c => c != '"') v ('"' :: w)
      (fun c hc => by simpa using hv c hc)]
    simp [List.takeWhile_cons]
  rw [h1, h2, h3]
  have h4 : v.length < (v ++ '"' :: w).length := by simp
  have h5 : occursIn tok v = true := by
    obtain ⟨x, y, hxy⟩ := hxy
    exact (occursIn_iff tok v).mpr ⟨x, y, hxy⟩
  simp [h4, h5]

theorem classAt_decomp (tok s : List Char) (h : classAt tok s = true) :
    ∃ v w, s = CLASS_OPEN ++ v ++ '"' :: w ∧
      (∀ c ∈ v, c ≠ '"') ∧ ∃ x y, v = x ++ tok ++ y := by
  unfold classAt at h
  rw [Bool.and_eq_true] at h
  obtain ⟨hpre, hrest⟩ := h
  rw [Bool.and_eq_true] at hrest
  obtain ⟨hlen, htok⟩ := hrest
  have hlen2 := of_decide_eq_true hlen
  obtain ⟨z, hz⟩ := List.isPrefixOf_iff_prefix.mp hpre
  have htz : s.drop CLASS_OPEN.length = z := by
    rw [← hz, List.drop_left]
  rw [htz] at hlen2 htok
  have hsplit := List.takeWhile_append_dropWhile
    (p := fun c => c != '"') (l := z)
  have hdw_ne : z.dropWhile (fun c => c != '"') ≠ [] := by
    intro hnil
    rw [hnil, List.append_nil] at hsplit
    rw [hsplit] at hlen2
    omega
  have hhead := List.head_dropWhile_not (fun c => c != '"') z hdw_ne
  have hq : (z.dropWhile (fun c => c != '"')).head hdw_ne = '"' := by
    simpa using hhead
  refine ⟨z.takeWhile (fun c => c != '"'),
    (z.dropWhile (fun c => c != '"')).tail, ?_, ?_, ?_⟩
  · have hdw2 : z.dropWhile (fun c => c != '"') =
        '"' :: (z.dropWhile (fun c => c != '"')).tail := by
      conv_lhs => rw [← List.head_cons_tail _ hdw_ne]
      rw [hq]
    rw [← hz, List.append_assoc]
    congr 1
    conv_lhs => rw [← hsplit, hdw2]
  · intro ch hch
    have := List.mem_takeWhile_imp hch
    simpa using this
  · exact (occursIn_iff tok _).mp htok

theorem classScan_iff (tok s : List Char) :
    classScan tok s = true ↔
      ∃ u v w, s = u ++ CLASS_OPEN ++ v ++ '"' :: w ∧
        (∀ c ∈ v, c ≠ '"') ∧ ∃ x y, v = x ++ tok ++ y := by
  constructor
  · induction s with
    | nil =>
      intro h
      rw [show classScan tok [] = (classAt tok [] || false) from rfl,
        classAt_nil] at h
      simp at h
    | cons c r ih =>
      intro h
      rw [classScan_cons, Bool.or_eq_true] at h
      rcases h with hA | hB
      · obtain ⟨v, w, hs, hv, hxy⟩ := classAt_decomp tok (c :: r) hA
        exact ⟨[], v, w, by simpa using hs, hv, hxy⟩
      · obtain ⟨u, v, w, hs, hv, hxy⟩ := ih hB
        exact ⟨c :: u, v, w, by simp [hs], hv, hxy⟩
  · rintro ⟨u, v, w, hs, hv, hxy⟩
    subst hs
    induction u with
    | nil =>
      apply classScan_of_classAt
      have h2 : ([] : List Char) ++ CLASS_OPEN ++ v ++ '"' :: w =
          CLASS_OPEN ++ (v ++ '"' :: w) := by simp [List.append_assoc]
      rw [h2]
      exact classAt_of_decomp tok v w hv hxy
    | cons c u2 ihu =>
      rw [show (c :: u2) ++ CLASS_OPEN ++ v ++ '"' :: w =
          c :: (u2 ++ CLASS_OPEN ++ v ++ '"' :: w) by simp]
      rw [classScan_cons, ihu]
      simp

/-- C7 counterexample: per the claim's pattern list this block (class
w-richtext) is Protected, but the code classifies it proseable — and
symmetrically data-widget carries no protection in the code. -/
theorem c7_counterexample :
    specProtectedC7 cex7 = true ∧ isSpecialElement cex7 = false := by
  refine ⟨by decide, by decide⟩

/-- C7 (amended): the code marks a block special exactly when its markup,
case-insensitively, contains one of the six protected tag openings (table,
iframe, embed, script, img, figure), or a class attribute value containing
widget (hence also w-widget and info-widget), or one containing w-embed, or
the substring data-w-id anywhere; w-richtext class tokens and data attributes
such as data-widget are not protected.  The decision reads only the block's
own markup. -/
theorem c7_classifier_characterization (b : List Char) :
    isSpecialElement b = true ↔
      (ContainsCI ("<table").data b ∨ ContainsCI ("<iframe").data b ∨
       ContainsCI ("<embed").data b ∨ ContainsCI ("<script").data b ∨
       ContainsCI ("<img").data b ∨ ContainsCI ("<figure").data b ∨
       HasClassTokenCI ("widget").data b ∨
       HasClassTokenCI ("w-embed").data b ∨
       HasClassTokenCI ("info-widget").data b ∨
       ContainsCI ("data-w-id").data b) := by
  unfold isSpecialElement ContainsCI HasClassTokenCI
  simp only [Bool.or_eq_true, occursIn_iff, classScan_iff, or_assoc]

theorem prefix_drop_occursIn {pat s : List Char} {i : Nat}
    (h : pat <+: s.drop i) : occursIn pat s = true := by
  obtain ⟨t, ht⟩ := h
  refine (occursIn_iff pat s).mpr ⟨s.take i, t, ?_⟩
  conv_lhs => rw [← List.take_append_drop i s, ← ht]
  exact (List.append_assoc _ _ _).symm

theorem prefix_confine {pat u z : List Char} (h : pat <+: u ++ z)
    (hk : pat.length ≤ u.length) : pat <+: u := by
  have h1 : pat = (u ++ z).take pat.length := List.prefix_iff_eq_take.mp h
  rw [List.take_append_eq_append_take, Nat.sub_eq_zero_of_le hk,
    List.take_zero, List.append_nil] at h1
  rw [h1]
  exact List.take_prefix _ _

theorem prefix_overflow {pat u z : List Char} (h : pat <+: u ++ z)
    (hk : u.length < pat.length) : u = pat.take u.length := by
  have h1 : pat = (u ++ z).take pat.length := List.prefix_iff_eq_take.mp h
  have h2 : pat.take u.length = ((u ++ z).take pat.length).take u.length := by
    rw [← h1]
  rw [List.take_take, Nat.min_eq_left (Nat.le_of_lt hk),
    List.take_append_eq_append_take, Nat.sub_self, List.take_zero,
    List.append_nil, List.take_of_length_le (Nat.le_refl _)] at h2
  exact h2.symm

theorem cd_positions (x t : List Char) (hocc : occursIn CLOSE_DIV x = false) :
    ∀ i, i < x.length →
      CLOSE_DIV.isPrefixOf ((x ++ (CLOSE_DIV ++ t)).drop i) = false := by
  intro i hi
  by_contra hcon
  rw [Bool.not_eq_false] at hcon
  have hpre0 := List.isPrefixOf_iff_prefix.mp hcon
  have hdrop : (x ++ (CLOSE_DIV ++ t)).drop i = x.drop i ++ (CLOSE_DIV ++ t) := by
    rw [List.drop_append_eq_append_drop, Nat.sub_eq_zero_of_le (le_of_lt hi),
      List.drop_zero]
  rw [hdrop] at hpre0
  by_cases hk : CLOSE_DIV.length ≤ (x.drop i).length
  · have := prefix_confine hpre0 hk
    rw [← Bool.not_eq_true] at hocc
    exact hocc (prefix_drop_occursIn this)
  · push_neg at hk
    have hu := prefix_overflow hpre0 hk
    -- x.drop i = CLOSE_DIV.take k and CLOSE_DIV.drop k = CLOSE_DIV.take (6 - k)
    have h1 : CLOSE_DIV = x.drop i ++ (CLOSE_DIV ++ t).take
        (CLOSE_DIV.length - (x.drop i).length) := by
      have h2 := List.prefix_iff_eq_take.mp hpre0
      rw [List.take_append_eq_append_take,
        List.take_of_length_le (Nat.le_of_lt hk)] at h2
      exact h2
    have h3 : (CLOSE_DIV ++ t).take (CLOSE_DIV.length - (x.drop i).length) =
        CLOSE_DIV.take (CLOSE_DIV.length - (x.drop i).length) := by
      rw [List.take_append_eq_append_take,
        Nat.sub_eq_zero_of_le (Nat.sub_le _ _), List.take_zero,
        List.append_nil]
    rw [h3] at h1
    have hkey : CLOSE_DIV.drop (x.drop i).length =
        CLOSE_DIV.take (CLOSE_DIV.length - (x.drop i).length) := by
      conv_lhs => rw [h1]
      rw [List.drop_append_eq_append_drop, List.drop_of_length_le (Nat.le_refl _),
        Nat.sub_self, List.drop_zero, List.nil_append]
    have hk1 : 1 ≤ (x.drop i).length := by
      rw [List.length_drop]
      omega
    obtain ⟨k, hkk⟩ : ∃ k, (x.drop i).length = k := ⟨_, rfl⟩
    rw [hkk] at hkey hk hk1
    have hk6 : k < 6 := by simpa using hk
    interval_cases k
    · exact absurd hkey (by decide)
    · exact absurd hkey (by decide)
    · exact absurd hkey (by decide)
    · exact absurd hkey (by decide)
    · exact absurd hkey (by decide)

theorem sig_no_gt : ∀ c ∈ SIG, c ≠ '>' := by decide

theorem getLast_opt_append_right (l : List Char) {l2 : List Char}
    (h : l2 ≠ []) : (l ++ l2).getLast? = l2.getLast? := by
  rw [List.getLast?_append]
  obtain ⟨a, ha⟩ := Option.isSome_iff_exists.mp (List.getLast?_isSome.mpr h)
  rw [ha]
  rfl

theorem sig_positions (b t : List Char) (hocc : occursIn SIG b = false)
    (hlast : b.getLast? = some '>') :
    ∀ i, i < b.length → SIG.isPrefixOf ((b ++ t).drop i) = false := by
  intro i hi
  by_contra hcon
  rw [Bool.not_eq_false] at hcon
  have hpre0 := List.isPrefixOf_iff_prefix.mp hcon
  have hdrop : (b ++ t).drop i = b.drop i ++ t := by
    rw [List.drop_append_eq_append_drop, Nat.sub_eq_zero_of_le (le_of_lt hi),
      List.drop_zero]
  rw [hdrop] at hpre0
  by_cases hk : SIG.length ≤ (b.drop i).length
  · have := prefix_confine hpre0 hk
    rw [← Bool.not_eq_true] at hocc
    exact hocc (prefix_drop_occursIn this)
  · push_neg at hk
    have hu := prefix_overflow hpre0 hk
    have hne : b.drop i ≠ [] := by
      intro h0
      have := congrArg List.length h0
      rw [List.length_drop] at this
      simp at this
      omega
    have hlast2 : (b.drop i).getLast? = some '>' := by
      conv at hlast => rw [← List.take_append_drop i b]
      rw [getLast_opt_append_right _ hne] at hlast
      exact hlast
    have hmem : '>' ∈ b.drop i := by
      obtain ⟨ys, hys⟩ := List.getLast?_eq_some_iff.mp hlast2
      rw [hys]
      simp
    rw [hu] at hmem
    exact sig_no_gt '>' (List.take_subset _ _ hmem) rfl

theorem stripAttempt_none_of_not_sig {s : List Char}
    (h : SIG.isPrefixOf s = false) : stripAttempt s = none := by
  unfold stripAttempt
  rw [h]
  simp

theorem stripHighlights_of_attempt_some : ∀ {s : List Char}
    {p : List Char × List Char}, stripAttempt s = some p →
    stripHighlights s = p.1 ++ stripHighlights p.2 := by
  intro s p h
  match s with
  | [] => exact absurd h (by rw [show stripAttempt [] = none from rfl]; simp)
  | c :: r => rw [stripHighlights_cons, h]

theorem stripHighlights_of_attempt_none : ∀ {c : Char} {r : List Char},
    stripAttempt (c :: r) = none →
    stripHighlights (c :: r) = c :: stripHighlights r := by
  intro c r h
  rw [stripHighlights_cons, h]

theorem stripHighlights_skip_block : ∀ (b : List Char),
    occursIn SIG b = false → b.getLast? = some '>' →
    ∀ t, stripHighlights (b ++ t) = b ++ stripHighlights t := by
  intro b
  induction b with
  | nil => intro _ _ t; simp
  | cons c r ih =>
    intro hocc hlast t
    rw [List.cons_append]
    have hnone : stripAttempt (c :: (r ++ t)) = none := by
      apply stripAttempt_none_of_not_sig
      have := sig_positions (c :: r) t hocc hlast 0 (by simp)
      simpa using this
    rw [stripHighlights_of_attempt_none hnone]
    cases hr : r with
    | nil =>
      subst hr
      simp
    | cons d r2 =>
      have hocc2 : occursIn SIG r = false := (occursIn_cons_false hocc).2
      have hlast2 : r.getLast? = some '>' := by
        rw [hr] at hlast ⊢
        rw [List.getLast?_cons_cons] at hlast
        exact hlast
      rw [← hr, ih hocc2 hlast2 t]
      simp

theorem splitFirst_exact (pat : List Char) : ∀ (x r : List Char),
    (∀ i, i < x.length → pat.isPrefixOf ((x ++ (pat ++ r)).drop i) = false) →
    splitFirst pat (x ++ (pat ++ r)) = some (x, r) := by
  intro x
  induction x with
  | nil =>
    intro r _
    rw [List.nil_append]
    unfold splitFirst
    have h1 : pat.isPrefixOf (pat ++ r) = true :=
      List.isPrefixOf_iff_prefix.mpr ⟨r, rfl⟩
    rw [h1]
    simp [List.drop_left]
  | cons c x2 ih =>
    intro r hyp
    have h0 : pat.isPrefixOf ((c :: x2) ++ (pat ++ r)) = false := by
      have := hyp 0 (by simp)
      simpa using this
    have hrec := ih r (fun i hi => by
      have := hyp (i + 1) (by simp; omega)
      simpa using this)
    rw [List.cons_append]
    unfold splitFirst
    rw [show (c :: (x2 ++ (pat ++ r))) = ((c :: x2) ++ (pat ++ r)) from rfl, h0]
    simp only [Bool.false_eq_true, if_false]
    rw [show ((c :: x2) ++ (pat ++ r)) = (c :: (x2 ++ (pat ++ r))) from rfl]
    dsimp only
    rw [hrec]

theorem highlight_open_decomp :
    HIGHLIGHT_OPEN = SIG ++ R1 ++ '"' :: '>' :: [] := by decide

theorem r1_no_quote : ∀ c ∈ R1, (c != '"') = true := by decide

theorem stripAttempt_wrapped (x t : List Char)
    (hocc : occursIn CLOSE_DIV x = false) :
    stripAttempt (HIGHLIGHT_OPEN ++ x ++ CLOSE_DIV ++ t) = some (x, t) := by
  have hs : HIGHLIGHT_OPEN ++ x ++ CLOSE_DIV ++ t =
      SIG ++ (R1 ++ '"' :: '>' :: (x ++ (CLOSE_DIV ++ t))) := by
    rw [highlight_open_decomp]
    simp [List.append_assoc]
  rw [hs]
  unfold stripAttempt
  have h1 : SIG.isPrefixOf
      (SIG ++ (R1 ++ '"' :: '>' :: (x ++ (CLOSE_DIV ++ t)))) = true :=
    List.isPrefixOf_iff_prefix.mpr ⟨_, rfl⟩
  rw [h1]
  have h2 : (SIG ++ (R1 ++ '"' :: '>' :: (x ++ (CLOSE_DIV ++ t)))).drop
      SIG.length = R1 ++ '"' :: '>' :: (x ++ (CLOSE_DIV ++ t)) :=
    List.drop_left _ _
  rw [h2]
  have h3 : (R1 ++ '"' :: '>' :: (x ++ (CLOSE_DIV ++ t))).takeWhile
      (fun c => c != '"') = R1 := by
    rw [takeWhile_all_append _ R1 _ r1_no_quote]
    simp [List.takeWhile_cons]
  rw [h3]
  have h4 : (R1 ++ '"' :: '>' :: (x ++ (CLOSE_DIV ++ t))).drop R1.length =
      '"' :: '>' :: (x ++ (CLOSE_DIV ++ t)) := List.drop_left _ _
  rw [h4]
  have h5 := splitFirst_exact CLOSE_DIV x t (cd_positions x t hocc)
  simp [h5]

theorem stripHighlights_wrapped (x t : List Char)
    (hocc : occursIn CLOSE_DIV x = false) :
    stripHighlights (HIGHLIGHT_OPEN ++ x ++ CLOSE_DIV ++ t) =
      x ++ stripHighlights t :=
  stripHighlights_of_attempt_some (stripAttempt_wrapped x t hocc)

theorem strip_processBlocks (L : List (List Char)) :
    ∀ bs : List (List Char),
    (∀ b ∈ bs, (isChangedBlock L b = true → occursIn CLOSE_DIV b = false) ∧
      (isChangedBlock L b = false →
        occursIn SIG b = false ∧ b.getLast? = some '>')) →
    stripHighlights (processBlocks L bs).1 = bs.flatten := by
  intro bs
  induction bs with
  | nil => intro _; rfl
  | cons b rest ih =>
    intro h
    have hrest := fun x hx => h x (List.mem_cons.mpr (Or.inr hx))
    simp only [processBlocks, List.flatten_cons]
    unfold annotateBlock
    by_cases hf : isChangedBlock L b = true
    · have hcd := (h b (List.mem_cons_self b rest)).1 hf
      rw [if_pos hf, stripHighlights_wrapped b _ hcd, ih hrest]
    · have hf2 : isChangedBlock L b = false := by
        revert hf
        cases isChangedBlock L b <;> simp
      obtain ⟨hsig, hlast⟩ := (h b (List.mem_cons_self b rest)).2 hf2
      rw [if_neg hf, stripHighlights_skip_block b hsig hlast _, ih hrest]

/-- C3 (amended): stripping the annotated HTML yields exactly the plain
concatenation of the candidate's blocks, provided no changed block's markup
contains `</div>` and every unchanged block's markup neither contains the
wrapper-open signature nor ends in anything but `>`.  Without the first
proviso byte-equality fails: the lazy stripper regex ends the wrapper at the
first `</div>`, as the counterexample shows. -/
theorem c3_strip_annotate_roundtrip (origBlocks updBlocks : List (List Char))
    (h : ∀ b ∈ updBlocks,
      (isChangedBlock (buildLookup origBlocks) b = true →
        occursIn CLOSE_DIV b = false) ∧
      (isChangedBlock (buildLookup origBlocks) b = false →
        occursIn SIG b = false ∧ b.getLast? = some '>')) :
    stripHighlights (createHighlightedHTML origBlocks updBlocks).1 =
      updBlocks.flatten :=
  strip_processBlocks (buildLookup origBlocks) updBlocks h

/-- C3 witness: a flagged paragraph next to a protected table round-trips to
the plain concatenation. -/
theorem c3_strip_annotate_roundtrip_witness :
    stripHighlights
        (createHighlightedHTML [] [newSentenceBlock, protTableBlock]).1 =
      ([newSentenceBlock, protTableBlock]).flatten :=
  c3_strip_annotate_roundtrip [] [newSentenceBlock, protTableBlock] (by decide)

/-- C3 counterexample: a changed block with an interior `</div>` does not
round-trip byte-identically (one closing div migrates). -/
theorem c3_counterexample :
    ¬ stripHighlights (createHighlightedHTML [] [cex3]).1 =
        ([cex3]).flatten := by
  decide

end ContentOps
